import Mathlib

/-!
# QFontEngineDirectWrite: glyph metrics and rasterisation pipeline

A shallow embedding of `src/gui/text/qfontenginedirectwrite.cpp`.

Conventions of the embedding:

* C arrays reached through a pointer (`QChar *`, `glyph_t *`, `uchar *`, the
  arrays of `QGlyphLayout`, `QVarLengthArray` buffers) are functions
  `Nat → α` from the index to the stored value, or lists when the code only
  reads them up to a length it is handed.
* A call into the font service (DirectWrite) is a field of the record that
  stands for the service object; a failed `HRESULT` is `none`.
* `qErrnoWarning` only prints a diagnostic and is left out.
-/

namespace QFontEngineDirectWrite

/-! ## Code-unit scanning -/

/-- Source lines 282-293, `getChar(const QChar *str, int &i, const int len)`.
The in/out index `i` is returned next to the code point: the result is
`(uc, i)` as they stand at `return uc`.  The arithmetic is `unsigned int`;
under the guard `uc < 0xdc00` and `low < 0xe000` it stays below `2 ^ 32`
(see `getChar_lt_two_pow_32`), so no wrap-around is written out. -/
def getChar (str : List Nat) (i : Nat) (len : Nat) : Nat × Nat :=
  let uc := str.getD i 0
  if 0xd800 ≤ uc ∧ uc < 0xdc00 ∧ i < len - 1 then
    let low := str.getD (i + 1) 0
    if 0xdc00 ≤ low ∧ low < 0xe000 then
      ((uc - 0xd800) * 0x400 + (low - 0xdc00) + 0x10000, i + 1)
    else
      (uc, i)
  else
    (uc, i)

/-! ## Fixed-point numbers -/

/-- Modelled from the spec: the fixed-point numeric type `QFixed` of
`qfixed_p.h`, which is not under src/ ("fixed-point logical units", a value
that can be "rounded to an integer pixel grid").  `val` counts 1/64 of a
logical pixel, so one whole pixel is `val = 64`. -/
structure QFixed where
  val : Int
deriving DecidableEq

namespace QFixed

/-- Modelled from the spec: `QFixed(int i)`, the whole number of pixels `i`. -/
def fromInt (i : Int) : QFixed := ⟨i * 64⟩

/-- Modelled from the spec: `QFixed::fromReal`, the conversion of a real
number of pixels to fixed point; the fraction below 1/64 is cut off towards
zero, as the cast to `int` does. -/
def fromReal (r : ℚ) : QFixed := ⟨Int.tdiv (r * 64).num (r * 64).den⟩

/-- Modelled from the spec: `QFixed::toReal`. -/
def toReal (f : QFixed) : ℚ := (f.val : ℚ) / 64

/-- Modelled from the spec: `QFixed::round`, "rounded to nearest integer
pixel" (a half rounds up); the result is again a `QFixed`. -/
def round (f : QFixed) : QFixed := ⟨(f.val + 32) / 64 * 64⟩

/-- Modelled from the spec: `QFixed::ceil`, the least whole pixel not below. -/
def ceil (f : QFixed) : QFixed := ⟨(f.val + 63) / 64 * 64⟩

/-- Modelled from the spec: `QFixed::floor`, the greatest whole pixel not
above. -/
def floor (f : QFixed) : QFixed := ⟨f.val / 64 * 64⟩

/-- Modelled from the spec: `QFixed::toInt`, the nearest whole number. -/
def toInt (f : QFixed) : Int := (f.val + 32) / 64

/-- Modelled from the spec: `QFixed` addition. -/
def add (a b : QFixed) : QFixed := ⟨a.val + b.val⟩

/-- Modelled from the spec: `QFixed` subtraction. -/
def sub (a b : QFixed) : QFixed := ⟨a.val - b.val⟩

/-- Modelled from the spec: `QFixed` negation. -/
def neg (a : QFixed) : QFixed := ⟨-a.val⟩

instance : Add QFixed := ⟨add⟩
instance : Sub QFixed := ⟨sub⟩
instance : Neg QFixed := ⟨neg⟩
instance : OfNat QFixed n := ⟨fromInt n⟩

end QFixed

/-! ## Font service records -/

/-- Design-space metrics of one glyph, the `DWRITE_GLYPH_METRICS` of
`dwrite.h`. -/
structure DWRITE_GLYPH_METRICS where
  leftSideBearing : Int
  advanceWidth : Int
  rightSideBearing : Int
  topSideBearing : Int
  advanceHeight : Int
  bottomSideBearing : Int
  verticalOriginY : Int

/-- What `TryGetFontTable` hands back when it succeeds: the table bytes, the
table size and the `exists` flag. -/
structure FontTable where
  tableData : Nat → Nat
  tableSize : Nat
  tableExists : Bool

/-- The `D2D1_POINT_2F` of `d2d1.h`. -/
structure D2D1_POINT_2F where
  x : ℚ
  y : ℚ
deriving DecidableEq

/-- The `D2D1_BEZIER_SEGMENT` of `d2d1.h`. -/
structure D2D1_BEZIER_SEGMENT where
  point1 : D2D1_POINT_2F
  point2 : D2D1_POINT_2F
  point3 : D2D1_POINT_2F
deriving DecidableEq

/-- One call of the font service on the sink. -/
inductive SinkEvent where
  | AddBeziers (beziers : List D2D1_BEZIER_SEGMENT)
  | AddLines (points : List D2D1_POINT_2F)
  | BeginFigure (startPoint : D2D1_POINT_2F) (figureBegin : Nat)
  | Close
  | EndFigure (figureEnd : Nat)
  | SetFillMode (fillMode : Nat)
  | SetSegmentFlags (vertexFlags : Nat)
deriving DecidableEq

/-- The `DWRITE_GLYPH_OFFSET` of `dwrite.h`. -/
structure DWRITE_GLYPH_OFFSET where
  advanceOffset : ℚ
  ascenderOffset : ℚ

/-- The font face `m_directWriteFontFace`.  Each field is one face-level query;
`none` is a failed `HRESULT`, and a successful query yields the contents of
its output buffer, indexed by position.  `GetGlyphRunOutline` is given the
em size, the glyph indices, advances and offsets, the glyph count and the
flags `isSideways` and `isRightToLeft`; it yields whether the `HRESULT` is a
success and the calls it made on the geometry sink, in order. -/
structure IDWriteFontFace where
  GetGlyphIndicesW : List Nat → Option (Nat → Nat)
  GetDesignGlyphMetrics : List Nat → Option (Nat → DWRITE_GLYPH_METRICS)
  TryGetFontTable : Nat → Option FontTable
  GetGlyphRunOutline : ℚ → List Nat → List ℚ → List DWRITE_GLYPH_OFFSET → Nat → Bool → Bool →
    Bool × List SinkEvent

/-- The font `m_directWriteFont`; `HasCharacter` yields `none` on a failed
`HRESULT` and the `exists` flag otherwise. -/
structure IDWriteFont where
  HasCharacter : Nat → Option Bool

/-- The part of `fontDef` the engine reads: the pixel size, and the outcome of
the test `fontDef.styleStrategy & QFont::ForceIntegerMetrics`. -/
structure QFontDef where
  pixelSize : ℚ
  forceIntegerMetrics : Bool

/-- The glyph box `glyph_metrics_t` (declared in `qtextengine_p.h`). -/
structure glyph_metrics_t where
  x : QFixed
  y : QFixed
  width : QFixed
  height : QFixed
  xoff : QFixed
  yoff : QFixed
deriving DecidableEq

/-- Modelled from the spec: the default-constructed `glyph_metrics_t()`, whose
constructor is not under src/; the spec calls it "a zeroed box (all fields
zero)". -/
def glyph_metrics_t.default : glyph_metrics_t := ⟨0, 0, 0, 0, 0, 0⟩

/-- The glyph arrays of `QGlyphLayout` that the engine touches. -/
structure QGlyphLayout where
  glyphs : Nat → Nat
  advances_x : Nat → QFixed
  advances_y : Nat → QFixed
  numGlyphs : Nat

/-- The entries of a `QTransform` (declared in `qtransform.h`). -/
structure QTransform where
  m11 : ℚ
  m12 : ℚ
  m13 : ℚ
  m21 : ℚ
  m22 : ℚ
  m23 : ℚ
  m31 : ℚ
  m32 : ℚ
  m33 : ℚ

/-- The `DWRITE_GLYPH_RUN` of `dwrite.h`; the three arrays are lists of
`glyphCount` entries. -/
structure DWRITE_GLYPH_RUN where
  fontFace : Option IDWriteFontFace
  fontEmSize : ℚ
  glyphCount : Nat
  glyphIndices : List Nat
  glyphAdvances : List ℚ
  glyphOffsets : List DWRITE_GLYPH_OFFSET
  isSideways : Bool
  bidiLevel : Nat

/-- The `DWRITE_MATRIX` of `dwrite.h`. -/
structure DWRITE_MATRIX where
  m11 : ℚ
  m12 : ℚ
  m21 : ℚ
  m22 : ℚ
  dx : ℚ
  dy : ℚ

/-- The `RECT` of `windef.h`. -/
structure RECT where
  left : Int
  top : Int
  right : Int
  bottom : Int

/-- The glyph-run analysis object.  `CreateAlphaTexture` (always asked for
`DWRITE_TEXTURE_CLEARTYPE_3x1`) is given the rectangle and the buffer size;
`none` is a failed `HRESULT`, otherwise the bytes it left in `alphaValues`. -/
structure IDWriteGlyphRunAnalysis where
  CreateAlphaTexture : RECT → Int → Option (Nat → Fin 256)

/-- The factory `m_directWriteFactory`.  `CreateGlyphRunAnalysis` is given the
glyph run and the transform (its other arguments are constants); `none` is a
failed `HRESULT`. -/
structure IDWriteFactory where
  CreateGlyphRunAnalysis : DWRITE_GLYPH_RUN → DWRITE_MATRIX → Option IDWriteGlyphRunAnalysis

/-- The engine state read by the functions below.  `baseLineThickness` is the
value of the inherited `QFontEngine::lineThickness()` and `baseBoundingBox`
the inherited `QFontEngine::boundingBox(glyph_t, const QTransform &)`; neither
is under src/. -/
structure Engine where
  fontDef : QFontDef
  m_directWriteFont : IDWriteFont
  m_directWriteFontFace : Option IDWriteFontFace
  m_directWriteFactory : IDWriteFactory
  m_lineThickness : QFixed
  m_unitsPerEm : Int
  m_ascent : QFixed
  m_descent : QFixed
  m_xHeight : QFixed
  m_lineGap : QFixed
  baseLineThickness : QFixed
  baseBoundingBox : Nat → QTransform → glyph_metrics_t

/-- Source lines 54-56, the macro `DESIGN_TO_LOGICAL`:
`QFixed::fromReal((qreal(V) / qreal(m_unitsPerEm)) * fontDef.pixelSize)`.
`qreal` arithmetic is carried out exactly, over the rationals, which agrees
with the C++ `double` whenever quotient and product are representable (as for
2048 units per em at pixel size 16).  With `m_unitsPerEm = 0` the C++ divides
by zero; the rational quotient is then 0. -/
def DESIGN_TO_LOGICAL (e : Engine) (DESIGN_UNIT_VALUE : Int) : QFixed :=
  QFixed.fromReal (((DESIGN_UNIT_VALUE : ℚ) / (e.m_unitsPerEm : ℚ)) * e.fontDef.pixelSize)

/-! ## Metric accessors -/

/-- Source lines 230-236. -/
def lineThickness (e : Engine) : QFixed :=
  if e.m_lineThickness.val > 0 then
    e.m_lineThickness
  else
    e.baseLineThickness

/-- Source lines 438-443. -/
def ascent (e : Engine) : QFixed :=
  if e.fontDef.forceIntegerMetrics then e.m_ascent.round else e.m_ascent

/-- Source lines 445-450. -/
def descent (e : Engine) : QFixed :=
  if e.fontDef.forceIntegerMetrics then (e.m_descent - 1).round else (e.m_descent - 1)

/-- Source lines 452-457. -/
def leading (e : Engine) : QFixed :=
  if e.fontDef.forceIntegerMetrics then e.m_lineGap.round else e.m_lineGap

/-- Source lines 459-464. -/
def xHeight (e : Engine) : QFixed :=
  if e.fontDef.forceIntegerMetrics then e.m_xHeight.round else e.m_xHeight

/-- The engine with integer-metrics mode set to `mode` and everything else
kept. -/
def Engine.withIntegerMetrics (e : Engine) (mode : Bool) : Engine :=
  { e with fontDef := { e.fontDef with forceIntegerMetrics := mode } }

/-! ## Advances and bounding box -/

/-- Body of the loop at source lines 345-350, for index `i`. -/
def recalcAdvancesStep (e : Engine) (glyphMetrics : Nat → DWRITE_GLYPH_METRICS)
    (glyphs : QGlyphLayout) (i : Nat) : QGlyphLayout :=
  let g1 : QGlyphLayout :=
    { glyphs with
      advances_x := Function.update glyphs.advances_x i
        (DESIGN_TO_LOGICAL e (glyphMetrics i).advanceWidth) }
  let g2 : QGlyphLayout :=
    if e.fontDef.forceIntegerMetrics then
      { g1 with advances_x := Function.update g1.advances_x i (g1.advances_x i).round }
    else g1
  { g2 with advances_y := Function.update g2.advances_y i 0 }

/-- Source lines 329-354, `recalcAdvances`.  The glyph indices are narrowed to
`UINT16` before the query. -/
def recalcAdvances (e : Engine) (glyphs : QGlyphLayout) : QGlyphLayout :=
  match e.m_directWriteFontFace with
  | none => glyphs
  | some face =>
    let glyphIndices : List Nat :=
      (List.range glyphs.numGlyphs).map (fun i => glyphs.glyphs i % 65536)
    match face.GetDesignGlyphMetrics glyphIndices with
    | some glyphMetrics =>
      (List.range glyphs.numGlyphs).foldl (recalcAdvancesStep e glyphMetrics) glyphs
    | none => glyphs

/-- Source lines 405-436, `boundingBox(glyph_t)`. -/
def boundingBox (e : Engine) (g : Nat) : glyph_metrics_t :=
  match e.m_directWriteFontFace with
  | none => glyph_metrics_t.default
  | some face =>
    let glyphIndex := g % 65536
    match face.GetDesignGlyphMetrics [glyphIndex] with
    | some glyphMetrics =>
      let advanceWidth := DESIGN_TO_LOGICAL e (glyphMetrics 0).advanceWidth
      let leftSideBearing := DESIGN_TO_LOGICAL e (glyphMetrics 0).leftSideBearing
      let rightSideBearing := DESIGN_TO_LOGICAL e (glyphMetrics 0).rightSideBearing
      let advanceHeight := DESIGN_TO_LOGICAL e (glyphMetrics 0).advanceHeight
      let verticalOriginY := DESIGN_TO_LOGICAL e (glyphMetrics 0).verticalOriginY
      let advanceWidth :=
        if e.fontDef.forceIntegerMetrics then advanceWidth.round else advanceWidth
      let advanceHeight :=
        if e.fontDef.forceIntegerMetrics then advanceHeight.round else advanceHeight
      let width := advanceWidth - leftSideBearing - rightSideBearing
      ⟨-leftSideBearing, -verticalOriginY, width, e.m_ascent + e.m_descent,
        advanceWidth, advanceHeight⟩
    | none => glyph_metrics_t.default

/-! ## canRender and stringToCMap -/

/-- The code points read off `str` from index `i` on by repeated `getChar`, each
followed by the `++i` of the scanning loops (source lines 300-301 and
619-621). -/
def decodeFrom (str : List Nat) (len : Nat) (i : Nat) : List Nat :=
  if i < len then
    (getChar str i len).1 :: decodeFrom str len ((getChar str i len).2 + 1)
  else
    []
termination_by len - i
decreasing_by
  simp only [getChar]
  split_ifs <;> simp only <;> omega

/-- The loop of `canRender` (source lines 619-629) from index `i` on, falling
through to `return true` at line 631. -/
def canRenderFrom (font : IDWriteFont) (string : List Nat) (len : Nat) (i : Nat) : Bool :=
  if i < len then
    match font.HasCharacter (getChar string i len).1 with
    | none => false
    | some false => false
    | some true => canRenderFrom font string len ((getChar string i len).2 + 1)
  else
    true
termination_by len - i
decreasing_by
  simp only [getChar]
  split_ifs <;> simp only <;> omega

/-- Source lines 617-632, `canRender`. -/
def canRender (e : Engine) (string : List Nat) (len : Nat) : Bool :=
  canRenderFrom e.m_directWriteFont string len 0

/-- The two tests `stringToCMap` makes on its `flags` argument:
`flags & QTextEngine::RightToLeft` and `flags & QTextEngine::GlyphIndicesOnly`. -/
structure ShaperFlags where
  rightToLeft : Bool
  glyphIndicesOnly : Bool

/-- What the C++ of `stringToCMap` leaves open.  `mirroredChar` is
`QChar::mirroredChar`, which is not under src/.  `uninit` is the content of
the freshly allocated `QVarLengthArray<UINT32> codePoints(len)`, which is not
initialised.  `lhsFirst` tells whether, in `codePoints[i] = getChar(str, i,
len)`, the index of the left operand is read before `getChar` runs (`true`)
or after it (`false`, the order C++17 fixes); before C++17 either may
happen. -/
structure Platform where
  mirroredChar : Nat → Nat
  uninit : Nat → Nat
  lhsFirst : Bool

/-- The first loop of `stringToCMap` (source lines 300-304) from index `i` on;
the result is the `codePoints` buffer when the loop ends. -/
def codePointsFrom (p : Platform) (flags : ShaperFlags) (str : List Nat) (len : Nat)
    (i : Nat) (codePoints : Nat → Nat) : Nat → Nat :=
  if i < len then
    let slot := if p.lhsFirst then i else (getChar str i len).2
    let codePoints1 := Function.update codePoints slot (getChar str i len).1
    let codePoints2 :=
      if flags.rightToLeft then
        Function.update codePoints1 (getChar str i len).2
          (p.mirroredChar (codePoints1 (getChar str i len).2))
      else codePoints1
    codePointsFrom p flags str len ((getChar str i len).2 + 1) codePoints2
  else
    codePoints
termination_by len - i
decreasing_by
  simp only [getChar]
  split_ifs <;> simp only <;> omega

/-- The `len` scalars `stringToCMap` hands to `GetGlyphIndicesW`
(`codePoints.data()`, `len`; source lines 307-309). -/
def stringToCMapCodePoints (p : Platform) (flags : ShaperFlags) (str : List Nat)
    (len : Nat) : List Nat :=
  (List.range len).map (codePointsFrom p flags str len 0 p.uninit)

/-- Result of `stringToCMap`: the returned flag, the glyph layout and
`*nglyphs` after the call. -/
structure StringToCMapResult where
  ret : Bool
  glyphs : QGlyphLayout
  nglyphs : Nat

/-- Source lines 295-327, `stringToCMap`. -/
def stringToCMap (e : Engine) (p : Platform) (str : List Nat) (len : Nat)
    (glyphs : QGlyphLayout) (nglyphs : Nat) (flags : ShaperFlags) : StringToCMapResult :=
  match e.m_directWriteFontFace with
  | some face =>
    match face.GetGlyphIndicesW (stringToCMapCodePoints p flags str len) with
    | some glyphIndices =>
      let glyphs1 : QGlyphLayout :=
        (List.range len).foldl
          (fun g i => { g with glyphs := Function.update g.glyphs i (glyphIndices i) }) glyphs
      let glyphs2 := if !flags.glyphIndicesOnly then recalcAdvances e glyphs1 else glyphs1
      ⟨true, glyphs2, len⟩
    | none => ⟨false, glyphs, nglyphs⟩
  | none => ⟨false, glyphs, nglyphs⟩

/-! ## Font tables -/

/-- Modelled from the spec: `qbswap<quint32>` of `qendian.h`, which is not under
src/ ("tag byte order reversed"): the four bytes of a 32-bit value in
reverse order. -/
def qbswap (source : Nat) : Nat :=
  ((source &&& 0x000000ff) <<< 24) ||| ((source &&& 0x0000ff00) <<< 8) |||
    ((source &&& 0x00ff0000) >>> 8) ||| ((source &&& 0xff000000) >>> 24)

/-- Result of `getSfntTableData`: the returned flag, the caller's buffer
(`none` for a null pointer) and `*length` after the call. -/
structure SfntTableResult where
  ret : Bool
  buffer : Option (Nat → Nat)
  length : Nat

/-- Source lines 238-272, `getSfntTableData`. -/
def getSfntTableData (e : Engine) (tag : Nat) (buffer : Option (Nat → Nat))
    (length : Nat) : SfntTableResult :=
  match e.m_directWriteFontFace with
  | some face =>
    let t := qbswap tag
    match face.TryGetFontTable t with
    | some table =>
      if !table.tableExists then
        ⟨false, buffer, length⟩
      else
        match buffer with
        | none => ⟨true, none, table.tableSize⟩
        | some buf =>
          if length < table.tableSize then
            ⟨false, buffer, length⟩
          else
            ⟨true, some (fun j => if j < table.tableSize then table.tableData j else buf j),
              length⟩
    | none => ⟨false, buffer, length⟩
  | none => ⟨false, buffer, length⟩

/-! ## Glyph images -/

/-- Modelled from the spec: the image container `QImage` (declared in
`qimage.h`, not under src/), here a 32-bit image of the given width and
height; `pixels y x` is the 32-bit value at column `x` of `scanLine(y)`. -/
structure QImage where
  width : Int
  height : Int
  pixels : Nat → Nat → Nat

/-- Modelled from the spec: the default-constructed `QImage()`, the "empty
image" of "no pixels, zero size". -/
def QImage.null : QImage := ⟨0, 0, fun _ _ => 0⟩

/-- Source line 508 (and 509): `(metrics.width + margin * 2 + 4).ceil().toInt()`. -/
def imageDimension (metric : QFixed) (margin : Int) : Int :=
  (metric + QFixed.fromInt (margin * 2) + 4).ceil.toInt

/-- Source lines 511-526: the single-glyph run handed to the analysis. -/
def imageGlyphRun (e : Engine) (t : Nat) (metrics : glyph_metrics_t) : DWRITE_GLYPH_RUN where
  fontFace := e.m_directWriteFontFace
  fontEmSize := e.fontDef.pixelSize
  glyphCount := 1
  glyphIndices := [t % 65536]
  glyphAdvances := [metrics.xoff.toReal]
  isSideways := false
  bidiLevel := 0
  glyphOffsets := [⟨0, 0⟩]

/-- Source lines 528-537: the transform handed to the analysis. -/
def imageTransform (metrics : glyph_metrics_t) (subPixelPosition : QFixed) (margin : Int)
    (xform : QTransform) : DWRITE_MATRIX where
  dx := (QFixed.fromInt margin - metrics.x.round + subPixelPosition).toReal
  dy := (QFixed.fromInt margin - metrics.y.floor).toReal
  m11 := xform.m11
  m12 := xform.m12
  m21 := xform.m21
  m22 := xform.m22

/-- Body of the inner loop at source lines 574-580.  The state is the scan
line `dest` and the read position `src`, an offset into `alphaValues`. -/
def repackStep (alphaValues : Nat → Fin 256) (st : (Nat → Nat) × Nat) (x : Nat) :
    (Nat → Nat) × Nat :=
  (Function.update st.1 x
      (((alphaValues st.2).val <<< 16) ||| ((alphaValues (st.2 + 1)).val <<< 8) |||
        (alphaValues (st.2 + 2)).val),
    st.2 + 3)

/-- Body of the outer loop at source lines 570-581, for scan line `y`; `src`
starts at `alphaValues + width * 3 * y`. -/
def repackLine (alphaValues : Nat → Fin 256) (width : Nat) (pixels : Nat → Nat → Nat)
    (y : Nat) : Nat → Nat → Nat :=
  Function.update pixels y
    ((List.range width).foldl (repackStep alphaValues) (pixels y, width * 3 * y)).1

/-- Source lines 502-599, `imageForGlyph`. -/
def imageForGlyph (e : Engine) (t : Nat) (subPixelPosition : QFixed) (margin : Int)
    (xform : QTransform) : QImage :=
  let metrics := e.baseBoundingBox t xform
  let width := imageDimension metrics.width margin
  let height := imageDimension metrics.height margin
  match e.m_directWriteFactory.CreateGlyphRunAnalysis (imageGlyphRun e t metrics)
      (imageTransform metrics subPixelPosition margin xform) with
  | some glyphAnalysis =>
    let rect : RECT := ⟨0, 0, width, height⟩
    let size := width * height * 3
    match glyphAnalysis.CreateAlphaTexture rect size with
    | some alphaValues =>
      let img : QImage := ⟨width, height, fun _ _ => 0xffffffff⟩
      { img with
        pixels := (List.range height.toNat).foldl (repackLine alphaValues width.toNat)
          img.pixels }
    | none => QImage.null
  | none => QImage.null

/-! ## The outline sink -/

/-- A point of the portable path, `QPointF`. -/
structure QPointF where
  x : ℚ
  y : ℚ
deriving DecidableEq

/-- Modelled from the spec: one step of a `PortablePath`, "move/line/cubic-curve
segments", together with the closing of a subpath. -/
inductive PathElement where
  | moveTo (p : QPointF)
  | lineTo (p : QPointF)
  | cubicTo (c1 c2 endPoint : QPointF)
  | closeSubpath
deriving DecidableEq

/-- Modelled from the spec: the fill rule of a path, "even-odd or
nonzero-winding". -/
inductive FillRule where
  | OddEvenFill
  | WindingFill
deriving DecidableEq

/-- Modelled from the spec: the `PortablePath` that `QPainterPath` (declared in
`qpainterpath.h`, not under src/) stands for: the segments in the order they
were added, "plus a fill rule". -/
structure QPainterPath where
  elements : List PathElement
  fillRule : FillRule
deriving DecidableEq

namespace QPainterPath

/-- Modelled from the spec: `QPainterPath::moveTo`, "start a new subpath at
`point`". -/
def moveTo (path : QPainterPath) (p : QPointF) : QPainterPath :=
  { path with elements := path.elements ++ [PathElement.moveTo p] }

/-- Modelled from the spec: `QPainterPath::lineTo`, "append line segments to the
current subpath". -/
def lineTo (path : QPainterPath) (p : QPointF) : QPainterPath :=
  { path with elements := path.elements ++ [PathElement.lineTo p] }

/-- Modelled from the spec: `QPainterPath::cubicTo`, "append cubic Bezier
segments (control1, control2, endpoint)". -/
def cubicTo (path : QPainterPath) (c1 c2 endPoint : QPointF) : QPainterPath :=
  { path with elements := path.elements ++ [PathElement.cubicTo c1 c2 endPoint] }

/-- Modelled from the spec: `QPainterPath::closeSubpath`, "close the current
subpath back to its start". -/
def closeSubpath (path : QPainterPath) : QPainterPath :=
  { path with elements := path.elements ++ [PathElement.closeSubpath] }

/-- Modelled from the spec: `QPainterPath::setFillRule`, "set the path's fill
rule". -/
def setFillRule (path : QPainterPath) (rule : FillRule) : QPainterPath :=
  { path with fillRule := rule }

end QPainterPath

/-- The value `D2D1_FILL_MODE_ALTERNATE` of `d2d1.h`. -/
def D2D1_FILL_MODE_ALTERNATE : Nat := 0

/-- The value `D2D1_FIGURE_END_CLOSED` of `d2d1.h`. -/
def D2D1_FIGURE_END_CLOSED : Nat := 1

/-- The status `E_NOTIMPL` of `winerror.h`. -/
def E_NOTIMPL : Nat := 0x80004001

/-- Source lines 60-89, the members of `GeometrySink`; `m_path` is the path the
sink points to. -/
structure GeometrySink where
  m_refCount : Nat
  m_startPoint : QPointF
  m_path : QPainterPath
deriving DecidableEq

namespace GeometrySink

/-- Source lines 81-84. -/
def fromD2D1_POINT_2F (inp : D2D1_POINT_2F) : QPointF := ⟨inp.x, inp.y⟩

/-- Source lines 91-101; `bezierCount` is the length of `beziers`. -/
def AddBeziers (sink : GeometrySink) (beziers : List D2D1_BEZIER_SEGMENT) : GeometrySink :=
  beziers.foldl
    (fun s b =>
      let c1 := fromD2D1_POINT_2F b.point1
      let c2 := fromD2D1_POINT_2F b.point2
      let p2 := fromD2D1_POINT_2F b.point3
      { s with m_path := s.m_path.cubicTo c1 c2 p2 })
    sink

/-- Source lines 103-107; `pointsCount` is the length of `points`. -/
def AddLines (sink : GeometrySink) (points : List D2D1_POINT_2F) : GeometrySink :=
  points.foldl (fun s pt => { s with m_path := s.m_path.lineTo (fromD2D1_POINT_2F pt) }) sink

/-- Source lines 109-114. -/
def BeginFigure (sink : GeometrySink) (startPoint : D2D1_POINT_2F) (_figureBegin : Nat) :
    GeometrySink :=
  let s1 := { sink with m_startPoint := fromD2D1_POINT_2F startPoint }
  { s1 with m_path := s1.m_path.moveTo s1.m_startPoint }

/-- Source lines 116-119: the returned status; the sink is not touched. -/
def Close (_sink : GeometrySink) : Nat := E_NOTIMPL

/-- Source lines 121-125. -/
def EndFigure (sink : GeometrySink) (figureEnd : Nat) : GeometrySink :=
  if figureEnd = D2D1_FIGURE_END_CLOSED then
    { sink with m_path := sink.m_path.closeSubpath }
  else sink

/-- Source lines 127-132. -/
def SetFillMode (sink : GeometrySink) (fillMode : Nat) : GeometrySink :=
  { sink with
    m_path := sink.m_path.setFillRule
      (if fillMode = D2D1_FILL_MODE_ALTERNATE then FillRule.OddEvenFill
        else FillRule.WindingFill) }

/-- Source lines 134-137. -/
def SetSegmentFlags (sink : GeometrySink) (_vertexFlags : Nat) : GeometrySink := sink

end GeometrySink

/-- The sink after one call. -/
def GeometrySink.handle (sink : GeometrySink) : SinkEvent → GeometrySink
  | SinkEvent.AddBeziers beziers => sink.AddBeziers beziers
  | SinkEvent.AddLines points => sink.AddLines points
  | SinkEvent.BeginFigure startPoint figureBegin => sink.BeginFigure startPoint figureBegin
  | SinkEvent.Close => sink
  | SinkEvent.EndFigure figureEnd => sink.EndFigure figureEnd
  | SinkEvent.SetFillMode fillMode => sink.SetFillMode fillMode
  | SinkEvent.SetSegmentFlags vertexFlags => sink.SetSegmentFlags vertexFlags

/-- The status a call returns, for the one call that returns one. -/
def GeometrySink.status (sink : GeometrySink) : SinkEvent → Option Nat
  | SinkEvent.Close => some sink.Close
  | _ => none

/-- The sink after a sequence of calls, in order. -/
def GeometrySink.run (sink : GeometrySink) (events : List SinkEvent) : GeometrySink :=
  events.foldl GeometrySink.handle sink

/-- The path segments one sink event stands for. -/
def SinkEvent.segments : SinkEvent → List PathElement
  | SinkEvent.AddBeziers beziers =>
    beziers.map (fun b =>
      PathElement.cubicTo ⟨b.point1.x, b.point1.y⟩ ⟨b.point2.x, b.point2.y⟩
        ⟨b.point3.x, b.point3.y⟩)
  | SinkEvent.AddLines points => points.map (fun pt => PathElement.lineTo ⟨pt.x, pt.y⟩)
  | SinkEvent.BeginFigure startPoint _ => [PathElement.moveTo ⟨startPoint.x, startPoint.y⟩]
  | SinkEvent.Close => []
  | SinkEvent.EndFigure figureEnd =>
    if figureEnd = D2D1_FIGURE_END_CLOSED then [PathElement.closeSubpath] else []
  | SinkEvent.SetFillMode _ => []
  | SinkEvent.SetSegmentFlags _ => []

/-! ## Outline extraction -/

/-- The `QFixedPoint` of `qfixed_p.h`: a position in fixed-point logical units. -/
structure QFixedPoint where
  x : QFixed
  y : QFixed

/-- Source lines 356-387, `addGlyphsToPath`.  `rightToLeft` is the test
`flags & QTextItem::RightToLeft`; the result is the caller's path after the
call.  The sink is constructed on the path (lines 63, 373) and receives the
calls of `GetGlyphRunOutline`; a failed `HRESULT` only prints a diagnostic, so
the path keeps whatever the sink was handed. -/
def addGlyphsToPath (e : Engine) (glyphs : Nat → Nat) (positions : Nat → QFixedPoint)
    (nglyphs : Nat) (path : QPainterPath) (rightToLeft : Bool) : QPainterPath :=
  match e.m_directWriteFontFace with
  | none => path
  | some face =>
    let glyphIndices : List Nat := (List.range nglyphs).map (fun i => glyphs i % 65536)
    let glyphOffsets : List DWRITE_GLYPH_OFFSET :=
      (List.range nglyphs).map (fun i => ⟨(positions i).x.toReal, -(positions i).y.toReal⟩)
    let glyphAdvances : List ℚ := (List.range nglyphs).map (fun _ => 0)
    let geometrySink : GeometrySink := ⟨0, ⟨0, 0⟩, path⟩
    let hr := face.GetGlyphRunOutline e.fontDef.pixelSize glyphIndices glyphAdvances
      glyphOffsets nglyphs false rightToLeft
    (geometrySink.run hr.2).m_path

/-! ## Sample inputs -/

/-- A glyph whose only non-zero design metric is its advance width. -/
def sampleMetrics (advanceWidth : Int) : DWRITE_GLYPH_METRICS :=
  ⟨0, advanceWidth, 0, 0, 0, 0, 0⟩

/-- A font face in which every glyph has advance width 1024 design units,
glyph indices are the code points narrowed to 16 bits, and the only table is
the four bytes 1, 2, 3, 4 under every tag. -/
def sampleFace : IDWriteFontFace where
  GetGlyphIndicesW := fun codePoints => some (fun i => codePoints.getD i 0 % 65536)
  GetDesignGlyphMetrics := fun _ => some (fun _ => sampleMetrics 1024)
  TryGetFontTable := fun _ => some ⟨fun j => j + 1, 4, true⟩
  GetGlyphRunOutline := fun _ _ _ glyphOffsets _ _ _ =>
    (true, glyphOffsets.map (fun o =>
      SinkEvent.BeginFigure ⟨o.advanceOffset, o.ascenderOffset⟩ 0))

/-- A texture that holds the byte `k % 256` at offset `k`. -/
def sampleTexture : Nat → Fin 256 := fun k => ⟨k % 256, Nat.mod_lt k (by decide)⟩

/-- A factory whose analysis and texture creation always succeed, with
`sampleTexture` as the texture. -/
def sampleFactory : IDWriteFactory where
  CreateGlyphRunAnalysis := fun _ _ => some ⟨fun _ _ => some sampleTexture⟩

/-- The identity transform. -/
def sampleTransform : QTransform := ⟨1, 0, 0, 0, 1, 0, 0, 0, 1⟩

/-- A font that has every code point below 0x80 and no other. -/
def sampleFont : IDWriteFont where
  HasCharacter := fun codePoint => some (decide (codePoint < 0x80))

/-- An engine of 2048 units per em at pixel size 16 over `sampleFace`, with
integer-metrics mode as given. -/
def sampleEngine (forceIntegerMetrics : Bool) : Engine where
  fontDef := ⟨16, forceIntegerMetrics⟩
  m_directWriteFont := sampleFont
  m_directWriteFontFace := some sampleFace
  m_directWriteFactory := sampleFactory
  baseBoundingBox := fun _ _ => ⟨0, 0, ⟨-160⟩, ⟨-200⟩, 0, 0⟩
  m_lineThickness := ⟨32⟩
  m_unitsPerEm := 2048
  m_ascent := ⟨1000⟩
  m_descent := ⟨300⟩
  m_xHeight := ⟨500⟩
  m_lineGap := ⟨100⟩
  baseLineThickness := 1

/-- An engine whose font-face creation failed (source lines 197-199 only print
a warning and go on): no font face, the default box as the inherited bounding
box, and the given factory. -/
def engineWithoutFace (factory : IDWriteFactory) : Engine :=
  { sampleEngine false with
    m_directWriteFontFace := none
    m_directWriteFactory := factory
    baseBoundingBox := fun _ _ => glyph_metrics_t.default }

/-- A glyph layout of one glyph, index 7, with stale advances. -/
def sampleLayout : QGlyphLayout where
  glyphs := fun _ => 7
  advances_x := fun _ => ⟨-1⟩
  advances_y := fun _ => ⟨-1⟩
  numGlyphs := 1

end QFontEngineDirectWrite

namespace QFontEngineDirectWrite

/-! ## Theorems -/

/-- No wrap-around in `getChar`: on 16-bit code units the returned value fits
an `unsigned int`. -/
theorem getChar_lt_two_pow_32 (str : List Nat) (i len : Nat)
    (h16 : ∀ u ∈ str, u < 0x10000) :
    (getChar str i len).1 < 2 ^ 32 := by
  have hget : ∀ j, str.getD j 0 < 0x10000 := by
    intro j
    by_cases hj : j < str.length
    · rw [List.getD_eq_getElem _ _ hj]
      exact h16 _ (List.getElem_mem _)
    · rw [List.getD_eq_default _ _ (by omega)]
      decide
  have h0 := hget i
  have h1 := hget (i + 1)
  unfold getChar
  simp only
  split_ifs <;> simp only <;> omega

/-- C1. `getChar` surrogate decoding: at an index `i < len` of a code-unit
sequence of length `len`, a high surrogate (0xD800..0xDBFF) that is not at the
last index and is followed by a low surrogate (0xDC00..0xDFFF) is decoded to
`(str[i]-0xD800)*0x400 + (str[i+1]-0xDC00) + 0x10000`, a value in
0x10000..0x10FFFF, and `i` advances by exactly one; in every other case the
unit `str[i]` is returned unchanged and `i` is left unchanged. -/
theorem getChar_surrogate_decoding (str : List Nat) (i : Nat) (_hi : i < str.length) :
    (0xD800 ≤ str.getD i 0 ∧ str.getD i 0 ≤ 0xDBFF ∧ i < str.length - 1 ∧
        0xDC00 ≤ str.getD (i + 1) 0 ∧ str.getD (i + 1) 0 ≤ 0xDFFF →
      getChar str i str.length =
          ((str.getD i 0 - 0xD800) * 0x400 + (str.getD (i + 1) 0 - 0xDC00) + 0x10000, i + 1) ∧
        0x10000 ≤ (getChar str i str.length).1 ∧
        (getChar str i str.length).1 ≤ 0x10FFFF) ∧
    (¬ (0xD800 ≤ str.getD i 0 ∧ str.getD i 0 ≤ 0xDBFF ∧ i < str.length - 1 ∧
        0xDC00 ≤ str.getD (i + 1) 0 ∧ str.getD (i + 1) 0 ≤ 0xDFFF) →
      getChar str i str.length = (str.getD i 0, i)) := by
  constructor
  · rintro ⟨h1, h2, h3, h4, h5⟩
    have hc : 0xd800 ≤ str.getD i 0 ∧ str.getD i 0 < 0xdc00 ∧ i < str.length - 1 :=
      ⟨h1, by omega, h3⟩
    have hl : 0xdc00 ≤ str.getD (i + 1) 0 ∧ str.getD (i + 1) 0 < 0xe000 := ⟨h4, by omega⟩
    have hval : getChar str i str.length =
        ((str.getD i 0 - 0xD800) * 0x400 + (str.getD (i + 1) 0 - 0xDC00) + 0x10000, i + 1) := by
      unfold getChar
      simp only [if_pos hc, if_pos hl]
    rw [hval]
    refine ⟨rfl, ?_, ?_⟩ <;> simp only <;> omega
  · intro hn
    unfold getChar
    simp only
    split_ifs with hc hl
    · exact absurd ⟨hc.1, by omega, hc.2.2, hl.1, by omega⟩ hn
    · rfl
    · rfl

/-- C1 at concrete inputs: the pair D83D DE00 decodes to U+1F600 and advances
the index. -/
theorem getChar_surrogate_decoding_witness :
    (0 : Nat) < [0xD83D, 0xDE00].length ∧
      getChar [0xD83D, 0xDE00] 0 2 = (0x1F600, 1) :=
  ⟨by decide,
    ((getChar_surrogate_decoding [0xD83D, 0xDE00] 0 (by decide)).1 (by decide)).1⟩

/-! ### Fixed-point rounding -/

/-- `QFixed.round` yields a whole number of pixels. -/
theorem QFixed.round_whole (f : QFixed) : f.round.val % 64 = 0 := by
  simp only [QFixed.round]
  omega

/-- `QFixed.round` yields a nearest whole pixel: it is at most half a pixel
away, and a half rounds up. -/
theorem QFixed.round_nearest (f : QFixed) :
    f.val - 32 < f.round.val ∧ f.round.val ≤ f.val + 32 := by
  simp only [QFixed.round]
  omega

/-! ### recalcAdvances -/

/-- The advance `recalcAdvances` stores for a glyph of the given design
advance width. -/
theorem recalcAdvancesStep_eq (e : Engine) (m : Nat → DWRITE_GLYPH_METRICS)
    (g : QGlyphLayout) (i : Nat) :
    recalcAdvancesStep e m g i =
      { g with
        advances_x := Function.update g.advances_x i
          (if e.fontDef.forceIntegerMetrics then (DESIGN_TO_LOGICAL e (m i).advanceWidth).round
            else DESIGN_TO_LOGICAL e (m i).advanceWidth)
        advances_y := Function.update g.advances_y i 0 } := by
  unfold recalcAdvancesStep
  cases h : e.fontDef.forceIntegerMetrics <;> simp

/-- The loop of `recalcAdvances` over the first `n` glyphs. -/
theorem recalcAdvances_loop (e : Engine) (m : Nat → DWRITE_GLYPH_METRICS) (n : Nat)
    (g : QGlyphLayout) :
    (List.range n).foldl (recalcAdvancesStep e m) g =
      { g with
        advances_x := fun i =>
          if i < n then
            (if e.fontDef.forceIntegerMetrics then (DESIGN_TO_LOGICAL e (m i).advanceWidth).round
              else DESIGN_TO_LOGICAL e (m i).advanceWidth)
          else g.advances_x i
        advances_y := fun i => if i < n then 0 else g.advances_y i } := by
  induction n with
  | zero => simp
  | succ n ih =>
    rw [List.range_succ, List.foldl_append, ih]
    simp only [List.foldl_cons, List.foldl_nil, recalcAdvancesStep_eq]
    congr 1
    · funext i
      by_cases h : i = n
      · subst h; simp
      · rw [Function.update_noteq h]
        by_cases h2 : i < n
        · simp [h2, Nat.lt_succ_of_lt h2]
        · have : ¬ i < n + 1 := by omega
          simp [h2, this]
    · funext i
      by_cases h : i = n
      · subst h; simp
      · rw [Function.update_noteq h]
        by_cases h2 : i < n
        · simp [h2, Nat.lt_succ_of_lt h2]
        · have : ¬ i < n + 1 := by omega
          simp [h2, this]

/-- C2. `recalcAdvances` postcondition: with the font face present, when the
design-metrics query (on the glyph indices narrowed to 16 bits) succeeds,
every `i < numGlyphs` gets `advances_x[i] = fixed((advanceWidth / unitsPerEm)
* pixelSize)`, rounded to the nearest whole pixel in integer-metrics mode, and
`advances_y[i] = 0`; when the query fails the advance arrays stay as they
were; the glyph indices and their count are never modified. -/
theorem recalcAdvances_postcondition (e : Engine) (face : IDWriteFontFace)
    (glyphs : QGlyphLayout) (hface : e.m_directWriteFontFace = some face) :
    (∀ glyphMetrics,
      face.GetDesignGlyphMetrics
          ((List.range glyphs.numGlyphs).map (fun i => glyphs.glyphs i % 65536)) =
        some glyphMetrics →
      ∀ i, i < glyphs.numGlyphs →
        (recalcAdvances e glyphs).advances_x i =
            (if e.fontDef.forceIntegerMetrics then
              (QFixed.fromReal ((((glyphMetrics i).advanceWidth : ℚ) / (e.m_unitsPerEm : ℚ)) *
                e.fontDef.pixelSize)).round
            else
              QFixed.fromReal ((((glyphMetrics i).advanceWidth : ℚ) / (e.m_unitsPerEm : ℚ)) *
                e.fontDef.pixelSize)) ∧
          (recalcAdvances e glyphs).advances_y i = 0) ∧
    (face.GetDesignGlyphMetrics
          ((List.range glyphs.numGlyphs).map (fun i => glyphs.glyphs i % 65536)) = none →
      (recalcAdvances e glyphs).advances_x = glyphs.advances_x ∧
        (recalcAdvances e glyphs).advances_y = glyphs.advances_y) ∧
    (recalcAdvances e glyphs).glyphs = glyphs.glyphs ∧
    (recalcAdvances e glyphs).numGlyphs = glyphs.numGlyphs := by
  refine ⟨?_, ?_, ?_, ?_⟩
  · intro m hm i hi
    simp only [recalcAdvances, hface, hm, recalcAdvances_loop, if_pos hi, DESIGN_TO_LOGICAL,
      and_self]
  · intro hm
    simp only [recalcAdvances, hface, hm, and_self]
  · simp only [recalcAdvances, hface]
    split <;> simp only [recalcAdvances_loop]
  · simp only [recalcAdvances, hface]
    split <;> simp only [recalcAdvances_loop]

/-- C2 at the scenario of the spec: 2048 units per em, pixel size 16 and a
design advance of 1024 give the advance 8.0 (512/64), and the whole number 8
with integer metrics on. -/
theorem recalcAdvances_postcondition_witness :
    (recalcAdvances (sampleEngine false) sampleLayout).advances_x 0 = ⟨512⟩ ∧
    (recalcAdvances (sampleEngine true) sampleLayout).advances_x 0 = QFixed.fromInt 8 ∧
    (recalcAdvances (sampleEngine true) sampleLayout).advances_y 0 = 0 := by
  have hoff := (recalcAdvances_postcondition (sampleEngine false) sampleFace sampleLayout
    rfl).1 (fun _ => sampleMetrics 1024) rfl 0 (by decide)
  have hon := (recalcAdvances_postcondition (sampleEngine true) sampleFace sampleLayout
    rfl).1 (fun _ => sampleMetrics 1024) rfl 0 (by decide)
  refine ⟨?_, ?_, hon.2⟩
  · rw [hoff.1]
    norm_num [sampleEngine, sampleMetrics, QFixed.fromReal]
  · rw [hon.1]
    norm_num [sampleEngine, sampleMetrics, QFixed.fromReal, QFixed.round, QFixed.fromInt]

/-! ### boundingBox -/

/-- C3. Single-glyph `boundingBox`: with the font face present, when the
design-metrics query for the glyph succeeds the box is x = -leftSideBearing,
y = -verticalOriginY, width = advanceWidth - leftSideBearing -
rightSideBearing, height = ascent + descent (the stored metrics), xAdvance =
advanceWidth, yAdvance = advanceHeight, the five glyph values being the design
values converted to logical units and only advanceWidth and advanceHeight
rounded to whole pixels in integer-metrics mode; when the query fails the box
has all six fields zero. -/
theorem boundingBox_single_glyph (e : Engine) (face : IDWriteFontFace) (g : Nat)
    (hface : e.m_directWriteFontFace = some face) :
    (∀ glyphMetrics, face.GetDesignGlyphMetrics [g % 65536] = some glyphMetrics →
      ∀ advanceWidth leftSideBearing rightSideBearing advanceHeight verticalOriginY : QFixed,
        advanceWidth =
          (if e.fontDef.forceIntegerMetrics then
            (QFixed.fromReal ((((glyphMetrics 0).advanceWidth : ℚ) / (e.m_unitsPerEm : ℚ)) *
              e.fontDef.pixelSize)).round
          else
            QFixed.fromReal ((((glyphMetrics 0).advanceWidth : ℚ) / (e.m_unitsPerEm : ℚ)) *
              e.fontDef.pixelSize)) →
        advanceHeight =
          (if e.fontDef.forceIntegerMetrics then
            (QFixed.fromReal ((((glyphMetrics 0).advanceHeight : ℚ) / (e.m_unitsPerEm : ℚ)) *
              e.fontDef.pixelSize)).round
          else
            QFixed.fromReal ((((glyphMetrics 0).advanceHeight : ℚ) / (e.m_unitsPerEm : ℚ)) *
              e.fontDef.pixelSize)) →
        leftSideBearing =
          QFixed.fromReal ((((glyphMetrics 0).leftSideBearing : ℚ) / (e.m_unitsPerEm : ℚ)) *
            e.fontDef.pixelSize) →
        rightSideBearing =
          QFixed.fromReal ((((glyphMetrics 0).rightSideBearing : ℚ) / (e.m_unitsPerEm : ℚ)) *
            e.fontDef.pixelSize) →
        verticalOriginY =
          QFixed.fromReal ((((glyphMetrics 0).verticalOriginY : ℚ) / (e.m_unitsPerEm : ℚ)) *
            e.fontDef.pixelSize) →
        boundingBox e g =
          { x := -leftSideBearing
            y := -verticalOriginY
            width := advanceWidth - leftSideBearing - rightSideBearing
            height := e.m_ascent + e.m_descent
            xoff := advanceWidth
            yoff := advanceHeight }) ∧
    (face.GetDesignGlyphMetrics [g % 65536] = none →
      boundingBox e g = ⟨⟨0⟩, ⟨0⟩, ⟨0⟩, ⟨0⟩, ⟨0⟩, ⟨0⟩⟩) := by
  constructor
  · intro m hm aw lsb rsb ah voy haw hah hlsb hrsb hvoy
    subst haw hah hlsb hrsb hvoy
    simp only [boundingBox, hface, hm, DESIGN_TO_LOGICAL]
  · intro hm
    simp only [boundingBox, hface, hm]
    rfl

/-- C3 at a concrete glyph: in the sample engine (2048 units per em, pixel size
16, every glyph 1024 design units wide and no bearings) glyph 7 has the box
x = 0, y = 0, width = 8 px, height = ascent + descent, xAdvance = 8 px,
yAdvance = 0. -/
theorem boundingBox_single_glyph_witness :
    boundingBox (sampleEngine true) 7 = ⟨⟨0⟩, ⟨0⟩, ⟨512⟩, ⟨1300⟩, ⟨512⟩, ⟨0⟩⟩ := by
  rw [(boundingBox_single_glyph (sampleEngine true) sampleFace 7 rfl).1
    (fun _ => sampleMetrics 1024) rfl ⟨512⟩ ⟨0⟩ ⟨0⟩ ⟨0⟩ ⟨0⟩
    (by norm_num [sampleEngine, sampleMetrics, QFixed.fromReal, QFixed.round])
    (by norm_num [sampleEngine, sampleMetrics, QFixed.fromReal, QFixed.round])
    (by norm_num [sampleEngine, sampleMetrics, QFixed.fromReal])
    (by norm_num [sampleEngine, sampleMetrics, QFixed.fromReal])
    (by norm_num [sampleEngine, sampleMetrics, QFixed.fromReal])]
  decide

/-! ### Metric accessors -/

/-- C6, as stated, fails for `lineThickness()`: with a stored thickness of half
a pixel the accessor returns half a pixel in integer-metrics mode too, while
the rounded value of the non-integer result is one whole pixel. -/
theorem lineThickness_not_rounded :
    lineThickness ((sampleEngine false).withIntegerMetrics true) = ⟨32⟩ ∧
    (lineThickness ((sampleEngine false).withIntegerMetrics false)).round = ⟨64⟩ ∧
    lineThickness ((sampleEngine false).withIntegerMetrics true) ≠
      (lineThickness ((sampleEngine false).withIntegerMetrics false)).round := by
  decide

/-- C6, amended. For every engine state, `ascent()`, `descent()`, `leading()`
and `xHeight()` evaluated with integer-metrics mode on return exactly
`round(v)`, where `v` is what the same accessor returns on the same state with
the mode off; `lineThickness()` returns the same value in both modes. -/
theorem integer_metrics_accessors (e : Engine) :
    ascent (e.withIntegerMetrics true) = (ascent (e.withIntegerMetrics false)).round ∧
    descent (e.withIntegerMetrics true) = (descent (e.withIntegerMetrics false)).round ∧
    leading (e.withIntegerMetrics true) = (leading (e.withIntegerMetrics false)).round ∧
    xHeight (e.withIntegerMetrics true) = (xHeight (e.withIntegerMetrics false)).round ∧
    lineThickness (e.withIntegerMetrics true) = lineThickness (e.withIntegerMetrics false) := by
  simp [ascent, descent, leading, xHeight, lineThickness, Engine.withIntegerMetrics]

/-- C8. `descent()` off-by-one: for every stored raw descent `d`, `descent()`
is `d - 1`, one whole logical pixel (64/64) less, with integer-metrics mode off
and `round(d - 1)` with it on; in neither mode is it `d` itself. -/
theorem descent_off_by_one (e : Engine) :
    descent (e.withIntegerMetrics false) = e.m_descent - 1 ∧
    (descent (e.withIntegerMetrics false)).val = e.m_descent.val - 64 ∧
    descent (e.withIntegerMetrics true) = (e.m_descent - 1).round ∧
    (descent (e.withIntegerMetrics true)).val = (e.m_descent.val - 64 + 32) / 64 * 64 ∧
    descent (e.withIntegerMetrics false) ≠ e.m_descent ∧
    descent (e.withIntegerMetrics true) ≠ e.m_descent := by
  have hsub : (e.m_descent - 1 : QFixed) = ⟨e.m_descent.val - 64⟩ := rfl
  refine ⟨rfl, ?_, rfl, ?_, ?_, ?_⟩
  · simp only [descent, Engine.withIntegerMetrics, hsub]
    rfl
  · simp only [descent, Engine.withIntegerMetrics, hsub, QFixed.round]
    rfl
  · intro h
    have := congrArg QFixed.val h
    simp only [descent, Engine.withIntegerMetrics, hsub] at this
    simp at this
  · intro h
    have := congrArg QFixed.val h
    simp only [descent, Engine.withIntegerMetrics, hsub, QFixed.round] at this
    simp at this
    omega

/-! ### canRender -/

/-- The loop of `canRender` from index `i` on succeeds exactly when the font
reports every code point decoded from `i` on as present. -/
theorem canRenderFrom_iff (font : IDWriteFont) (string : List Nat) (len i : Nat) :
    canRenderFrom font string len i = true ↔
      ∀ cp ∈ decodeFrom string len i, font.HasCharacter cp = some true := by
  induction i using canRenderFrom.induct font string len with
  | case1 x hx hq =>
    rw [canRenderFrom, decodeFrom]
    simp [hx, hq]
  | case2 x hx hq =>
    rw [canRenderFrom, decodeFrom]
    simp [hx, hq]
  | case3 x hx hq ih =>
    rw [canRenderFrom, decodeFrom]
    simp [hx, hq, ih]
  | case4 x hx =>
    rw [canRenderFrom, decodeFrom]
    simp [hx]

/-- Two code units that do not form a surrogate pair decode to themselves. -/
theorem decodeFrom_two (a b : Nat)
    (h : ¬ (0xD800 ≤ a ∧ a ≤ 0xDBFF ∧ 0xDC00 ≤ b ∧ b ≤ 0xDFFF)) :
    decodeFrom [a, b] 2 0 = [a, b] := by
  have h0 : getChar [a, b] 0 2 = (a, 0) := by
    unfold getChar
    simp only [List.getD_cons_zero, List.getD_cons_succ]
    split_ifs with hc hl
    · exact absurd ⟨hc.1, by omega, hl.1, by omega⟩ h
    · rfl
    · rfl
  have h1 : getChar [a, b] 1 2 = (b, 1) := by
    unfold getChar
    simp
  rw [decodeFrom]
  simp only [h0, show (0 : Nat) < 2 by decide, if_true]
  rw [decodeFrom]
  simp only [h1, show (0 + 1 : Nat) < 2 by decide, if_true]
  rw [decodeFrom]
  simp

/-- C4. `canRender` on a code-unit sequence returns true if and only if, for
every code point obtained by decoding the sequence left to right with
`getChar`, the font's character-existence query succeeds and reports the code
point present.  In particular it is true for the empty sequence, false for a
two-character string whose first code point exists and whose second does not,
and false (a plain boolean) when a query fails. -/
theorem canRender_iff (e : Engine) (string : List Nat) :
    (canRender e string string.length = true ↔
      ∀ cp ∈ decodeFrom string string.length 0,
        e.m_directWriteFont.HasCharacter cp = some true) ∧
    canRender e [] 0 = true ∧
    (∀ a b : Nat, ¬ (0xD800 ≤ a ∧ a ≤ 0xDBFF ∧ 0xDC00 ≤ b ∧ b ≤ 0xDFFF) →
      e.m_directWriteFont.HasCharacter a = some true →
      e.m_directWriteFont.HasCharacter b = some false →
      canRender e [a, b] 2 = false) ∧
    ((∃ cp ∈ decodeFrom string string.length 0,
        e.m_directWriteFont.HasCharacter cp = none) →
      canRender e string string.length = false) := by
  refine ⟨canRenderFrom_iff _ _ _ _, ?_, ?_, ?_⟩
  · rw [canRender, canRenderFrom]
    simp
  · intro a b hab _ hb
    have hiff := canRenderFrom_iff e.m_directWriteFont [a, b] 2 0
    rw [decodeFrom_two a b hab] at hiff
    cases hc : canRender e [a, b] 2 with
    | false => rfl
    | true =>
      have hall := hiff.1 hc b (by simp)
      rw [hb] at hall
      cases hall
  · rintro ⟨cp, hmem, hnone⟩
    cases hc : canRender e string string.length with
    | false => rfl
    | true =>
      have hall := (canRenderFrom_iff _ _ _ _).1 hc cp hmem
      rw [hnone] at hall
      cases hall

/-- C4 at concrete inputs: the sample font has the code points below 0x80
only, so "AB" can be rendered, "A" followed by U+0142 cannot, and neither can
the surrogate pair for U+1F600. -/
theorem canRender_iff_witness :
    canRender (sampleEngine false) [0x41, 0x42] 2 = true ∧
    canRender (sampleEngine false) [0x41, 0x142] 2 = false ∧
    canRender (sampleEngine false) [0xD83D, 0xDE00] 2 = false := by
  refine ⟨?_, ?_, ?_⟩
  · refine (canRender_iff (sampleEngine false) [0x41, 0x42]).1.2 ?_
    show ∀ cp ∈ decodeFrom [0x41, 0x42] 2 0, _
    rw [decodeFrom_two 0x41 0x42 (by decide)]
    decide
  · exact (canRender_iff (sampleEngine false) []).2.2.1 0x41 0x142 (by decide) rfl rfl
  · simp [canRender, canRenderFrom, getChar, sampleEngine, sampleFont]

/-! ### stringToCMap -/

/-- C5, the code at the failing input. For the two code units D83D DE00 (one
valid surrogate pair, so one decoded scalar, U+1F600) with the font face
present and the glyph query succeeding, `stringToCMap` returns true but hands
two scalars to the glyph query, one of them the uninitialised content of the
`codePoints` buffer, and reports two glyphs, not one. -/
theorem stringToCMap_surrogate_pair_count (p : Platform) :
    decodeFrom [0xD83D, 0xDE00] 2 0 = [0x1F600] ∧
    stringToCMapCodePoints p ⟨false, true⟩ [0xD83D, 0xDE00] 2 =
      (if p.lhsFirst then [0x1F600, p.uninit 1] else [p.uninit 0, 0x1F600]) ∧
    (stringToCMap (sampleEngine false) p [0xD83D, 0xDE00] 2 sampleLayout 0 ⟨false, true⟩).ret =
      true ∧
    (stringToCMap (sampleEngine false) p [0xD83D, 0xDE00] 2 sampleLayout 0
      ⟨false, true⟩).nglyphs = 2 := by
  have hg : getChar [0xD83D, 0xDE00] 0 2 = (0x1F600, 1) := by decide
  refine ⟨?_, ?_, rfl, rfl⟩
  · rw [decodeFrom]
    simp only [hg, show (0 : Nat) < 2 by decide, if_true]
    rw [decodeFrom]
    simp
  · unfold stringToCMapCodePoints
    rw [codePointsFrom]
    simp only [hg, show (0 : Nat) < 2 by decide, if_true]
    rw [codePointsFrom]
    cases h : p.lhsFirst <;> simp [List.range_succ, Function.update]

/-! ### getSfntTableData -/

/-- C7. `getSfntTableData` two-phase protocol: the call returns true if and
only if the font face is present, the table query for the byte-swapped tag
succeeds, the table exists, and either the buffer is null or the caller's
`*length` is at least the table size.  On such a table, a null buffer sets
`*length` to the table size and no buffer is written; a buffer of sufficient
size receives exactly the first `tableSize` bytes of the table (the rest of
the buffer and `*length` stay); a buffer whose `*length` is smaller than the
table size gives false with buffer and `*length` unchanged. -/
theorem getSfntTableData_protocol (e : Engine) (tag : Nat) (buffer : Option (Nat → Nat))
    (length : Nat) :
    ((getSfntTableData e tag buffer length).ret = true ↔
      ∃ face table, e.m_directWriteFontFace = some face ∧
        face.TryGetFontTable (qbswap tag) = some table ∧ table.tableExists = true ∧
        (buffer = none ∨ table.tableSize ≤ length)) ∧
    (∀ face table, e.m_directWriteFontFace = some face →
      face.TryGetFontTable (qbswap tag) = some table → table.tableExists = true →
      (buffer = none →
        getSfntTableData e tag buffer length = ⟨true, none, table.tableSize⟩) ∧
      (∀ buf, buffer = some buf → table.tableSize ≤ length →
        ∃ out, getSfntTableData e tag buffer length = ⟨true, some out, length⟩ ∧
          (∀ j, j < table.tableSize → out j = table.tableData j) ∧
          (∀ j, table.tableSize ≤ j → out j = buf j)) ∧
      (∀ buf, buffer = some buf → length < table.tableSize →
        getSfntTableData e tag buffer length = ⟨false, some buf, length⟩)) := by
  constructor
  · constructor
    · intro h
      unfold getSfntTableData at h
      cases hf : e.m_directWriteFontFace with
      | none => simp [hf] at h
      | some face =>
        cases hq : face.TryGetFontTable (qbswap tag) with
        | none => simp [hf, hq] at h
        | some table =>
          cases hex : table.tableExists with
          | false => simp [hf, hq, hex] at h
          | true =>
            refine ⟨face, table, rfl, hq, hex, ?_⟩
            cases hb : buffer with
            | none => exact Or.inl rfl
            | some buf =>
              right
              by_contra hlt
              have hlt2 : length < table.tableSize := by omega
              simp [hf, hq, hex, hb, hlt2] at h
    · rintro ⟨face, table, hf, hq, hex, hb⟩
      unfold getSfntTableData
      cases hbuf : buffer with
      | none => simp [hf, hq, hex]
      | some buf =>
        have hle : table.tableSize ≤ length := by
          rcases hb with hb | hb
          · rw [hbuf] at hb; cases hb
          · exact hb
        have hnlt : ¬ length < table.tableSize := by omega
        simp [hf, hq, hex, hnlt]
  · intro face table hf hq hex
    refine ⟨?_, ?_, ?_⟩
    · intro hb
      subst hb
      simp [getSfntTableData, hf, hq, hex]
    · intro buf hb hle
      subst hb
      have hnlt : ¬ length < table.tableSize := by omega
      refine ⟨fun j => if j < table.tableSize then table.tableData j else buf j, ?_, ?_, ?_⟩
      · simp [getSfntTableData, hf, hq, hex, hnlt]
      · intro j hj
        simp [hj]
      · intro j hj
        have : ¬ j < table.tableSize := by omega
        simp [this]
    · intro buf hb hlt
      subst hb
      simp [getSfntTableData, hf, hq, hex, hlt]

/-- C7 at concrete inputs: the sample face has a four-byte table under every
tag, so the length query with a null buffer answers 4, and a three-byte buffer
is refused and left alone. -/
theorem getSfntTableData_protocol_witness :
    getSfntTableData (sampleEngine false) 0x68656164 none 0 = ⟨true, none, 4⟩ ∧
    (getSfntTableData (sampleEngine false) 0x68656164 (some (fun _ => 0)) 3).ret = false :=
  ⟨((getSfntTableData_protocol (sampleEngine false) 0x68656164 none 0).2
      sampleFace ⟨fun j => j + 1, 4, true⟩ rfl rfl rfl).1 rfl,
    by
      rw [((getSfntTableData_protocol (sampleEngine false) 0x68656164 (some (fun _ => 0)) 3).2
        sampleFace ⟨fun j => j + 1, 4, true⟩ rfl rfl rfl).2.2 (fun _ => 0) rfl (by decide)]⟩

/-! ### imageForGlyph -/

/-- The image dimension of source lines 508-509 is the ceiling of the metric
(in pixels) plus twice the margin plus 4. -/
theorem imageDimension_eq_ceil (metric : QFixed) (margin : Int) :
    imageDimension metric margin = ⌈metric.toReal + 2 * (margin : ℚ) + 4⌉ := by
  have hdim : imageDimension metric margin = (metric.val + 63) / 64 + 2 * margin + 4 := by
    show ((metric.val + margin * 2 * 64 + ((4 : Nat) : Int) * 64 + 63) / 64 * 64 + 32) / 64 = _
    omega
  rw [hdim]
  symm
  rw [Int.ceil_eq_iff]
  have h1 : 64 * ((metric.val + 63) / 64) ≤ metric.val + 63 := by omega
  have h2 : metric.val ≤ 64 * ((metric.val + 63) / 64) := by omega
  have h1q : (64 : ℚ) * (((metric.val + 63) / 64 : Int) : ℚ) ≤ (metric.val : ℚ) + 63 := by
    exact_mod_cast h1
  have h2q : (metric.val : ℚ) ≤ (64 : ℚ) * (((metric.val + 63) / 64 : Int) : ℚ) := by
    exact_mod_cast h2
  simp only [QFixed.toReal]
  push_cast
  constructor <;> linarith

/-- The inner loop of the repacking over the first `w` columns. -/
theorem repack_inner (alphaValues : Nat → Fin 256) (w : Nat) (dest : Nat → Nat) (src : Nat) :
    (List.range w).foldl (repackStep alphaValues) (dest, src) =
      (fun x =>
        if x < w then
          ((alphaValues (src + 3 * x)).val <<< 16) |||
            ((alphaValues (src + 3 * x + 1)).val <<< 8) ||| (alphaValues (src + 3 * x + 2)).val
        else dest x,
        src + 3 * w) := by
  induction w with
  | zero => simp
  | succ w ih =>
    rw [List.range_succ, List.foldl_append, ih]
    simp only [List.foldl_cons, List.foldl_nil, repackStep]
    refine Prod.ext ?_ (by simp only; omega)
    funext x
    by_cases h : x = w
    · subst h; simp
    · simp only [Function.update_noteq h]
      by_cases h2 : x < w
      · simp [h2, Nat.lt_succ_of_lt h2]
      · have : ¬ x < w + 1 := by omega
        simp [h2, this]

/-- The outer loop of the repacking over the first `h` scan lines. -/
theorem repack_outer (alphaValues : Nat → Fin 256) (w h : Nat) (pixels : Nat → Nat → Nat) :
    (List.range h).foldl (repackLine alphaValues w) pixels =
      fun y x =>
        if y < h ∧ x < w then
          ((alphaValues (3 * (y * w + x))).val <<< 16) |||
            ((alphaValues (3 * (y * w + x) + 1)).val <<< 8) |||
            (alphaValues (3 * (y * w + x) + 2)).val
        else pixels y x := by
  induction h with
  | zero => simp
  | succ h ih =>
    rw [List.range_succ, List.foldl_append, ih]
    simp only [List.foldl_cons, List.foldl_nil, repackLine, repack_inner]
    funext y x
    by_cases hy : y = h
    · subst hy
      have e2 : w * 3 * y + 3 * x = 3 * (y * w + x) := by ring
      simp [e2]
    · simp only [Function.update_noteq hy]
      by_cases h2 : y < h
      · simp [h2, Nat.lt_succ_of_lt h2]
      · have : ¬ y < h + 1 := by omega
        simp [h2, this]

/-- A value packed from three bytes is below `2 ^ 24`. -/
theorem pack_lt (r g b : Fin 256) :
    ((r.val <<< 16) ||| (g.val <<< 8) ||| b.val) < 2 ^ 24 := by
  have hr : r.val <<< 16 < 2 ^ 24 := by
    rw [Nat.shiftLeft_eq]; have := r.isLt; omega
  have hg : g.val <<< 8 < 2 ^ 24 := by
    rw [Nat.shiftLeft_eq]; have := g.isLt; omega
  have hb : b.val < 2 ^ 24 := by have := b.isLt; omega
  exact Nat.or_lt_two_pow (Nat.or_lt_two_pow hr hg) hb

/-- C9. `imageForGlyph` repacking: when glyph-run analysis and alpha-texture
creation both succeed, the returned image has width
`ceil(metrics.width + 2*margin + 4)` and height
`ceil(metrics.height + 2*margin + 4)`, and every pixel `(x, y)` inside it holds
`(r << 16) | (g << 8) | b` for the coverage bytes `r`, `g`, `b` at offsets
`3*(y*width + x)`, `+1`, `+2` of the texture; no pixel keeps the white
pre-fill `0xffffffff`. -/
theorem imageForGlyph_repack (e : Engine) (t : Nat) (subPixelPosition : QFixed) (margin : Int)
    (xform : QTransform) (glyphAnalysis : IDWriteGlyphRunAnalysis)
    (alphaValues : Nat → Fin 256)
    (hanalysis : e.m_directWriteFactory.CreateGlyphRunAnalysis
        (imageGlyphRun e t (e.baseBoundingBox t xform))
        (imageTransform (e.baseBoundingBox t xform) subPixelPosition margin xform) =
      some glyphAnalysis)
    (htexture : glyphAnalysis.CreateAlphaTexture
        ⟨0, 0, imageDimension (e.baseBoundingBox t xform).width margin,
          imageDimension (e.baseBoundingBox t xform).height margin⟩
        (imageDimension (e.baseBoundingBox t xform).width margin *
          imageDimension (e.baseBoundingBox t xform).height margin * 3) =
      some alphaValues) :
    (imageForGlyph e t subPixelPosition margin xform).width =
      ⌈(e.baseBoundingBox t xform).width.toReal + 2 * (margin : ℚ) + 4⌉ ∧
    (imageForGlyph e t subPixelPosition margin xform).height =
      ⌈(e.baseBoundingBox t xform).height.toReal + 2 * (margin : ℚ) + 4⌉ ∧
    ∀ x y : Nat,
      (x : Int) < (imageForGlyph e t subPixelPosition margin xform).width →
      (y : Int) < (imageForGlyph e t subPixelPosition margin xform).height →
      (imageForGlyph e t subPixelPosition margin xform).pixels y x =
          ((alphaValues (3 * (y *
              (imageForGlyph e t subPixelPosition margin xform).width.toNat + x))).val <<< 16) |||
            ((alphaValues (3 * (y *
              (imageForGlyph e t subPixelPosition margin xform).width.toNat + x) + 1)).val <<< 8) |||
            (alphaValues (3 * (y *
              (imageForGlyph e t subPixelPosition margin xform).width.toNat + x) + 2)).val ∧
        (imageForGlyph e t subPixelPosition margin xform).pixels y x ≠ 0xffffffff := by
  have himg : imageForGlyph e t subPixelPosition margin xform =
      ⟨imageDimension (e.baseBoundingBox t xform).width margin,
        imageDimension (e.baseBoundingBox t xform).height margin,
        (List.range (imageDimension (e.baseBoundingBox t xform).height margin).toNat).foldl
          (repackLine alphaValues (imageDimension (e.baseBoundingBox t xform).width margin).toNat)
          (fun _ _ => 0xffffffff)⟩ := by
    simp only [imageForGlyph, hanalysis, htexture]
  rw [himg]
  refine ⟨imageDimension_eq_ceil _ _, imageDimension_eq_ceil _ _, ?_⟩
  intro x y hx hy
  have hx2 : x < (imageDimension (e.baseBoundingBox t xform).width margin).toNat := by
    simp only at hx; omega
  have hy2 : y < (imageDimension (e.baseBoundingBox t xform).height margin).toNat := by
    simp only at hy; omega
  simp only [repack_outer, hx2, hy2, and_self, if_true, true_and]
  exact Nat.ne_of_lt (lt_trans (pack_lt _ _ _) (by decide))

/-- C9 at a concrete glyph: the sample engine reports a box of -2.5 by -3.125
pixels, so with margin 0 the image is 2 by 1, and its pixel (1, 0) packs the
texture bytes 3, 4, 5. -/
theorem imageForGlyph_repack_witness :
    (imageForGlyph (sampleEngine false) 7 0 0 sampleTransform).width = 2 ∧
    (imageForGlyph (sampleEngine false) 7 0 0 sampleTransform).height = 1 ∧
    (imageForGlyph (sampleEngine false) 7 0 0 sampleTransform).pixels 0 1 = 0x030405 := by
  have h := (imageForGlyph_repack (sampleEngine false) 7 0 0 sampleTransform
    ⟨fun _ _ => some sampleTexture⟩ sampleTexture rfl rfl).2.2 1 0 (by decide) (by decide)
  refine ⟨by decide, by decide, ?_⟩
  rw [h.1]
  decide

/-! ### GeometrySink -/

/-- `AddBeziers` appends one cubic per segment, in array order. -/
theorem GeometrySink.AddBeziers_eq (sink : GeometrySink) (beziers : List D2D1_BEZIER_SEGMENT) :
    sink.AddBeziers beziers =
      { sink with
        m_path :=
          { sink.m_path with
            elements := sink.m_path.elements ++ (SinkEvent.AddBeziers beziers).segments } } := by
  unfold GeometrySink.AddBeziers
  induction beziers generalizing sink with
  | nil => simp [SinkEvent.segments]
  | cons b rest ih =>
    rw [List.foldl_cons, ih]
    simp [SinkEvent.segments, QPainterPath.cubicTo, GeometrySink.fromD2D1_POINT_2F]

/-- `AddLines` appends one line-to per point, in array order. -/
theorem GeometrySink.AddLines_eq (sink : GeometrySink) (points : List D2D1_POINT_2F) :
    sink.AddLines points =
      { sink with
        m_path :=
          { sink.m_path with
            elements := sink.m_path.elements ++ (SinkEvent.AddLines points).segments } } := by
  unfold GeometrySink.AddLines
  induction points generalizing sink with
  | nil => simp [SinkEvent.segments]
  | cons pt rest ih =>
    rw [List.foldl_cons, ih]
    simp [SinkEvent.segments, QPainterPath.lineTo, GeometrySink.fromD2D1_POINT_2F]

/-- One sink event appends its segments to the path. -/
theorem GeometrySink.handle_elements (sink : GeometrySink) (ev : SinkEvent) :
    (sink.handle ev).m_path.elements = sink.m_path.elements ++ ev.segments := by
  cases ev with
  | AddBeziers beziers => simp [GeometrySink.handle, GeometrySink.AddBeziers_eq]
  | AddLines points => simp [GeometrySink.handle, GeometrySink.AddLines_eq]
  | BeginFigure startPoint figureBegin =>
    simp [GeometrySink.handle, GeometrySink.BeginFigure, QPainterPath.moveTo,
      SinkEvent.segments, GeometrySink.fromD2D1_POINT_2F]
  | Close => simp [GeometrySink.handle, SinkEvent.segments]
  | EndFigure figureEnd =>
    by_cases h : figureEnd = D2D1_FIGURE_END_CLOSED <;>
      simp [GeometrySink.handle, GeometrySink.EndFigure, QPainterPath.closeSubpath,
        SinkEvent.segments, h]
  | SetFillMode fillMode =>
    simp [GeometrySink.handle, GeometrySink.SetFillMode, QPainterPath.setFillRule,
      SinkEvent.segments]
  | SetSegmentFlags vertexFlags =>
    simp [GeometrySink.handle, GeometrySink.SetSegmentFlags, SinkEvent.segments]

/-- One sink event other than `SetFillMode` keeps the fill rule. -/
theorem GeometrySink.handle_fillRule (sink : GeometrySink) (ev : SinkEvent)
    (h : ∀ fillMode, ev ≠ SinkEvent.SetFillMode fillMode) :
    (sink.handle ev).m_path.fillRule = sink.m_path.fillRule := by
  cases ev with
  | AddBeziers beziers => simp [GeometrySink.handle, GeometrySink.AddBeziers_eq]
  | AddLines points => simp [GeometrySink.handle, GeometrySink.AddLines_eq]
  | BeginFigure startPoint figureBegin =>
    simp [GeometrySink.handle, GeometrySink.BeginFigure, QPainterPath.moveTo]
  | Close => simp [GeometrySink.handle]
  | EndFigure figureEnd =>
    by_cases h : figureEnd = D2D1_FIGURE_END_CLOSED <;>
      simp [GeometrySink.handle, GeometrySink.EndFigure, QPainterPath.closeSubpath, h]
  | SetFillMode fillMode => exact absurd rfl (h fillMode)
  | SetSegmentFlags vertexFlags => simp [GeometrySink.handle, GeometrySink.SetSegmentFlags]

/-- A sequence of sink events appends the segments of its events, in order. -/
theorem GeometrySink.run_elements (sink : GeometrySink) (events : List SinkEvent) :
    (sink.run events).m_path.elements =
      sink.m_path.elements ++ events.flatMap SinkEvent.segments := by
  unfold GeometrySink.run
  induction events generalizing sink with
  | nil => simp
  | cons ev rest ih =>
    rw [List.foldl_cons, ih, GeometrySink.handle_elements]
    simp

/-- A sequence of sink events without `SetFillMode` keeps the fill rule. -/
theorem GeometrySink.run_fillRule (sink : GeometrySink) (events : List SinkEvent)
    (h : ∀ ev ∈ events, ∀ fillMode, ev ≠ SinkEvent.SetFillMode fillMode) :
    (sink.run events).m_path.fillRule = sink.m_path.fillRule := by
  unfold GeometrySink.run
  induction events generalizing sink with
  | nil => simp
  | cons ev rest ih =>
    rw [List.foldl_cons, ih _ (fun ev' hev' => h ev' (List.mem_cons_of_mem _ hev')),
      GeometrySink.handle_fillRule _ _ (h ev (List.mem_cons_self _ _))]

/-- C10. OutlineSink event translation: for every sequence of sink events
applied to a path, the resulting path is the original path extended, in event
order, by one move-to per `BeginFigure(p)` (at `p`), one line-to per point of
`AddLines`, one cubic (control1, control2, endpoint) per segment of
`AddBeziers`, and one close-subpath per `EndFigure` that is closed; the fill
rule afterwards is the one of the last `SetFillMode` (alternate gives
even-odd, anything else winding), or the original rule if there was none;
`Close` returns the not-implemented status and changes neither the path nor
the fill rule. -/
theorem GeometrySink_event_translation (sink : GeometrySink) (events : List SinkEvent) :
    (sink.run events).m_path.elements =
      sink.m_path.elements ++ events.flatMap SinkEvent.segments ∧
    (∀ before fillMode after, events = before ++ SinkEvent.SetFillMode fillMode :: after →
      (∀ ev ∈ after, ∀ m, ev ≠ SinkEvent.SetFillMode m) →
      (sink.run events).m_path.fillRule =
        if fillMode = D2D1_FILL_MODE_ALTERNATE then FillRule.OddEvenFill
        else FillRule.WindingFill) ∧
    ((∀ ev ∈ events, ∀ m, ev ≠ SinkEvent.SetFillMode m) →
      (sink.run events).m_path.fillRule = sink.m_path.fillRule) ∧
    sink.status SinkEvent.Close = some E_NOTIMPL ∧
    sink.handle SinkEvent.Close = sink := by
  refine ⟨GeometrySink.run_elements sink events, ?_, GeometrySink.run_fillRule sink events,
    rfl, rfl⟩
  intro before fillMode after hev hafter
  subst hev
  have hsplit : sink.run (before ++ SinkEvent.SetFillMode fillMode :: after) =
      ((sink.run before).handle (SinkEvent.SetFillMode fillMode)).run after := by
    simp [GeometrySink.run, List.foldl_append]
  rw [hsplit, GeometrySink.run_fillRule _ _ hafter]
  rfl

/-- C10 on a concrete outline: a closed triangle drawn after an alternate fill
mode, followed by a `Close` call. -/
theorem GeometrySink_event_translation_witness :
    ((GeometrySink.mk 0 ⟨0, 0⟩ ⟨[], FillRule.WindingFill⟩).run
        [SinkEvent.SetFillMode 0, SinkEvent.BeginFigure ⟨0, 0⟩ 0,
          SinkEvent.AddLines [⟨4, 0⟩, ⟨0, 3⟩], SinkEvent.EndFigure 1,
          SinkEvent.Close]).m_path =
      ⟨[PathElement.moveTo ⟨0, 0⟩, PathElement.lineTo ⟨4, 0⟩, PathElement.lineTo ⟨0, 3⟩,
          PathElement.closeSubpath],
        FillRule.OddEvenFill⟩ := by
  have h := GeometrySink_event_translation (GeometrySink.mk 0 ⟨0, 0⟩ ⟨[], FillRule.WindingFill⟩)
    [SinkEvent.SetFillMode 0, SinkEvent.BeginFigure ⟨0, 0⟩ 0,
      SinkEvent.AddLines [⟨4, 0⟩, ⟨0, 3⟩], SinkEvent.EndFigure 1, SinkEvent.Close]
  have hfill := h.2.1 [] 0 _ rfl (by simp)
  have helem := h.1
  rw [QPainterPath.mk.injEq]
  refine ⟨?_, ?_⟩
  · rw [helem]
    simp [SinkEvent.segments, D2D1_FIGURE_END_CLOSED]
  · rw [hfill]
    rfl

/-! ### Failure isolation -/

/-- With a font face present `addGlyphsToPath` feeds the outline of the glyph
run into the path: the sample face opens one figure per glyph at its offset,
which is the position with the vertical coordinate negated. -/
theorem addGlyphsToPath_with_face :
    addGlyphsToPath (sampleEngine false) (fun _ => 7) (fun _ => ⟨⟨64⟩, ⟨128⟩⟩) 1
      ⟨[], FillRule.WindingFill⟩ false =
        ⟨[PathElement.moveTo ⟨1, -2⟩], FillRule.WindingFill⟩ := by
  simp only [addGlyphsToPath, sampleEngine, sampleFace, GeometrySink.run, List.range_succ,
    List.range_zero, List.nil_append, List.map_cons, List.map_nil, List.foldl_cons,
    List.foldl_nil, GeometrySink.handle, GeometrySink.BeginFigure, QPainterPath.moveTo,
    GeometrySink.fromD2D1_POINT_2F, QFixed.toReal]
  norm_num

/-- The guards on the font face: on an engine whose font face is absent, for
every input `stringToCMap` returns false and leaves the glyph array and the
output count unchanged, `recalcAdvances` leaves the layout unchanged,
`boundingBox(glyph)` returns the all-zero box and `addGlyphsToPath` leaves the
path unchanged. -/
theorem face_absent_guards (e : Engine) (hface : e.m_directWriteFontFace = none) :
    (∀ p str len glyphs nglyphs flags,
      stringToCMap e p str len glyphs nglyphs flags = ⟨false, glyphs, nglyphs⟩) ∧
    (∀ glyphs, recalcAdvances e glyphs = glyphs) ∧
    (∀ g, boundingBox e g = ⟨⟨0⟩, ⟨0⟩, ⟨0⟩, ⟨0⟩, ⟨0⟩, ⟨0⟩⟩) ∧
    (∀ glyphs positions nglyphs path rightToLeft,
      addGlyphsToPath e glyphs positions nglyphs path rightToLeft = path) := by
  refine ⟨?_, ?_, ?_, ?_⟩
  · intro p str len glyphs nglyphs flags
    simp only [stringToCMap, hface]
  · intro glyphs
    simp only [recalcAdvances, hface]
  · intro g
    simp only [boundingBox, hface]
    rfl
  · intro glyphs positions nglyphs path rightToLeft
    simp only [addGlyphsToPath, hface]

/-- The guards at a concrete engine without a font face. -/
theorem face_absent_guards_witness :
    (stringToCMap (engineWithoutFace sampleFactory) ⟨id, fun _ => 0, true⟩ [0x41] 1
      sampleLayout 5 ⟨false, false⟩).ret = false ∧
    (stringToCMap (engineWithoutFace sampleFactory) ⟨id, fun _ => 0, true⟩ [0x41] 1
      sampleLayout 5 ⟨false, false⟩).nglyphs = 5 ∧
    (recalcAdvances (engineWithoutFace sampleFactory) sampleLayout).advances_x 0 = ⟨-1⟩ ∧
    boundingBox (engineWithoutFace sampleFactory) 7 = ⟨⟨0⟩, ⟨0⟩, ⟨0⟩, ⟨0⟩, ⟨0⟩, ⟨0⟩⟩ ∧
    addGlyphsToPath (engineWithoutFace sampleFactory) (fun _ => 7) (fun _ => ⟨0, 0⟩) 1
      ⟨[PathElement.moveTo ⟨1, 2⟩], FillRule.OddEvenFill⟩ false =
        ⟨[PathElement.moveTo ⟨1, 2⟩], FillRule.OddEvenFill⟩ := by
  have h := face_absent_guards (engineWithoutFace sampleFactory) rfl
  refine ⟨?_, ?_, ?_, h.2.2.1 7, h.2.2.2 _ _ _ _ _⟩
  · rw [h.1]
  · rw [h.1]
  · rw [h.2.1]
    rfl

/-- C11, the code at the failing input. On an engine whose font face is absent,
`imageForGlyph` (glyph 7, sub-pixel position 0, margin 0, identity transform)
does not return at a check of the font face, as its sibling functions do: for
every factory, it hands the factory a glyph run whose font face is absent, and
the factory's answer decides the result.  If the analysis fails, the result
is the empty image; if the analysis and the texture creation succeed, the
result is a 4 by 4 image of packed texture bytes, not the empty image. -/
theorem imageForGlyph_face_absent (factory : IDWriteFactory) :
    (engineWithoutFace factory).m_directWriteFontFace = none ∧
    (imageGlyphRun (engineWithoutFace factory) 7 glyph_metrics_t.default).fontFace.isNone =
      true ∧
    (factory.CreateGlyphRunAnalysis
          (imageGlyphRun (engineWithoutFace factory) 7 glyph_metrics_t.default)
          (imageTransform glyph_metrics_t.default 0 0 sampleTransform) = none →
      imageForGlyph (engineWithoutFace factory) 7 0 0 sampleTransform = QImage.null) ∧
    (∀ glyphAnalysis alphaValues,
      factory.CreateGlyphRunAnalysis
          (imageGlyphRun (engineWithoutFace factory) 7 glyph_metrics_t.default)
          (imageTransform glyph_metrics_t.default 0 0 sampleTransform) = some glyphAnalysis →
      glyphAnalysis.CreateAlphaTexture ⟨0, 0, 4, 4⟩ 48 = some alphaValues →
      (imageForGlyph (engineWithoutFace factory) 7 0 0 sampleTransform).width = 4 ∧
        (imageForGlyph (engineWithoutFace factory) 7 0 0 sampleTransform).height = 4 ∧
        (imageForGlyph (engineWithoutFace factory) 7 0 0 sampleTransform).pixels 0 0 =
          ((alphaValues 0).val <<< 16) ||| ((alphaValues 1).val <<< 8) |||
            (alphaValues 2).val ∧
        imageForGlyph (engineWithoutFace factory) 7 0 0 sampleTransform ≠ QImage.null) := by
  refine ⟨rfl, rfl, ?_, ?_⟩
  · intro hnone
    have hnone2 : (engineWithoutFace factory).m_directWriteFactory.CreateGlyphRunAnalysis
        (imageGlyphRun (engineWithoutFace factory) 7
          ((engineWithoutFace factory).baseBoundingBox 7 sampleTransform))
        (imageTransform ((engineWithoutFace factory).baseBoundingBox 7 sampleTransform) 0 0
          sampleTransform) = none := hnone
    simp only [imageForGlyph, hnone2]
  · intro glyphAnalysis alphaValues hsome htex
    have hsome2 : (engineWithoutFace factory).m_directWriteFactory.CreateGlyphRunAnalysis
        (imageGlyphRun (engineWithoutFace factory) 7
          ((engineWithoutFace factory).baseBoundingBox 7 sampleTransform))
        (imageTransform ((engineWithoutFace factory).baseBoundingBox 7 sampleTransform) 0 0
          sampleTransform) = some glyphAnalysis := hsome
    have htex2 : glyphAnalysis.CreateAlphaTexture
        ⟨0, 0,
          imageDimension ((engineWithoutFace factory).baseBoundingBox 7 sampleTransform).width 0,
          imageDimension ((engineWithoutFace factory).baseBoundingBox 7 sampleTransform).height 0⟩
        (imageDimension ((engineWithoutFace factory).baseBoundingBox 7 sampleTransform).width 0 *
          imageDimension ((engineWithoutFace factory).baseBoundingBox 7 sampleTransform).height 0 *
          3) = some alphaValues := htex
    have himg : imageForGlyph (engineWithoutFace factory) 7 0 0 sampleTransform =
        ⟨4, 4, (List.range 4).foldl (repackLine alphaValues 4) (fun _ _ => 0xffffffff)⟩ := by
      simp only [imageForGlyph, hsome2, htex2]
      rfl
    rw [himg]
    refine ⟨rfl, rfl, ?_, ?_⟩
    · simp [repack_outer]
    · intro h
      have hw : (4 : Int) = 0 := congrArg QImage.width h
      exact absurd hw (by decide)

end QFontEngineDirectWrite
